import Mathlib

/-!
playerHUD: session discovery and metadata synchronisation.

A shallow embedding of the core of `src/main.c` (the functions
`str_has_prefix`, `pick_mpris_player`, `set_label`, `maybe_load_cover`,
`parse_metadata_and_update`, `poll_update` and the initial state built by
`main`), followed by the properties of that code.

Conventions of the embedding:

* a C string is the list of its bytes before the terminating NUL
  (`CStr`); a `char *` that may be `NULL` is an `Option CStr`;
* the session bus, the file system, `getuid` and `system` are outside the
  program: their answers during one tick are the fields of `Env`, the files
  on disk are a `FileSystem`, and every call that leaves the process is
  recorded, in program order, as an `Event`;
* the GTK widgets are their visible content: the text of the two labels and
  the file the image was last loaded from.
-/

namespace PlayerHUD

/-! ## Strings -/

/-- Content of a C string: its bytes up to, not including, the NUL. -/
abbrev CStr := List UInt8

/-- Bytes (UTF-8) of a string literal of the source. -/
def cs (s : String) : CStr := s.toUTF8.data.toList

/-- GLib `g_str_has_prefix (str, prefix)`: byte-wise prefix test. -/
def g_str_has_prefix (s p : CStr) : Bool := p.isPrefixOf s

/-- Source `str_has_prefix`: `s && p && g_str_has_prefix(s, p)`. -/
def str_has_prefix (s p : Option CStr) : Bool :=
  match s, p with
  | some s, some p => g_str_has_prefix s p
  | _, _ => false

/-- GLib `g_strlcpy (dest, src, dest_size)`: the content of `dest` after the
copy, at most `dest_size - 1` bytes of `src`. -/
def g_strlcpy (src : CStr) (dest_size : Nat) : CStr := src.take (dest_size - 1)

/-- Output of `snprintf (buf, size, ...)` when the formatted text is `out`:
at most `size - 1` bytes are stored. -/
def snprintf (size : Nat) (out : CStr) : CStr := out.take (size - 1)

/-- Decimal digits of a natural number, as bytes. -/
def decimal (n : Nat) : CStr := (Nat.toDigits 10 n).map (fun c => UInt8.ofNat c.toNat)

/-- Text produced by the conversion `%d`. -/
def fmt_d : Int → CStr
  | Int.ofNat n => decimal n
  | Int.negSucc n => 45 :: decimal (n + 1)

/-- The cast `(int)getuid()`: `uid_t` is an unsigned 32-bit integer, the cast
keeps the low 32 bits and reads them as two's complement. -/
def uid_as_int (uid : Nat) : Int :=
  if uid % 2 ^ 32 < 2 ^ 31 then ((uid % 2 ^ 32 : Nat) : Int)
  else ((uid % 2 ^ 32 : Nat) : Int) - 2 ^ 32

/-! ## Bus values, files, widgets -/

/-- A `GVariant` as far as the program inspects it: a string (`s`), an array
of strings (`as`), a dictionary from strings to variants (`a{sv}`), or a value
of any other type (identified by its type string). -/
inductive GVariant where
  | str (s : CStr)
  | strv (xs : List CStr)
  | vardict (entries : List (CStr × GVariant))
  | other (type_string : CStr)

/-- Content of a file. -/
abbrev FileData := List UInt8

/-- The files on disk: what is stored under each path, if anything. -/
abbrev FileSystem := CStr → Option FileData

/-- GLib `g_file_test (path, G_FILE_TEST_EXISTS)`. -/
def g_file_test_exists (fs : FileSystem) (path : CStr) : Bool := (fs path).isSome

/-- What a `GtkImage` shows: nothing (after `gtk_image_new`) or the file it
was last set from, with the data read at that moment (`none`: the file could
not be read and the widget shows the broken-image icon). -/
inductive GtkImage where
  | empty
  | file (path : CStr) (data : Option FileData)
  deriving DecidableEq

/-- GTK `gtk_image_set_from_file (image, path)`. -/
def gtk_image_set_from_file (fs : FileSystem) (path : CStr) : GtkImage :=
  GtkImage.file path (fs path)

/-- The struct `App` of the source. `bus` records whether the connection
handle is non-NULL; the window handle plays no part in the core. -/
structure App where
  img : GtkImage
  lbl_title : CStr
  lbl_artist : CStr
  bus : Bool
  player_name : Option CStr
  cover_path : CStr
  centered_once : Bool
  deriving DecidableEq

/-- Answers of the world outside the process during one tick. -/
structure Env where
  /-- Value of `getuid ()`. -/
  uid : Nat
  /-- Reply of the bus call `ListNames`: the registered names in the order of
  the reply, `none` when the call fails. -/
  listNames : Option (List CStr)
  /-- Reply of `Properties.Get (Player, Metadata)` sent to a name: the variant
  wrapped in the `(v)` reply, `none` when the call fails or times out. -/
  getMetadata : CStr → Option GVariant
  /-- Effect of `system (cmd)`: the status returned and the files afterwards. -/
  system : CStr → FileSystem → Int × FileSystem

/-- Calls that leave the process, and the image load. -/
inductive Event where
  | ListNames
  | GetMetadata (dest : CStr)
  | FileTest (path : CStr)
  | RunCommand (cmd : CStr)
  | ImageSetFromFile (path : CStr)
  deriving DecidableEq

/-- Result of running a piece of the program: the new `App`, the files on disk
and the calls made, oldest first. -/
structure Outcome where
  app : App
  fs : FileSystem
  calls : List Event

/-! ## The program -/

/-- The service-name prefix tested by `pick_mpris_player`. -/
def mpris_name_start : CStr := cs "org.mpris.MediaPlayer2."

/-- The loop of `pick_mpris_player` over the names of the reply: stop at the
first name with the prefix. -/
def pick_mpris_player_loop : List CStr → Option CStr
  | [] => none
  | name :: rest =>
    if g_str_has_prefix name mpris_name_start then some name
    else pick_mpris_player_loop rest

/-- Source `pick_mpris_player`: one `ListNames` call, then the loop. Returns
the chosen name (`none` for `NULL`) and the calls made. -/
def pick_mpris_player (env : Env) : Option CStr × List Event :=
  match env.listNames with
  | none => (none, [Event.ListNames])
  | some names => (pick_mpris_player_loop names, [Event.ListNames])

/-- Source `set_label`: the text the label shows afterwards
(`gtk_label_set_text` shows the empty text for `NULL`). -/
def set_label (text fallback : Option CStr) : CStr :=
  match text with
  | some (c :: t) => c :: t
  | _ => fallback.getD []

/-- The path written to `app->cover_path` by `maybe_load_cover`. -/
def cover_path_for (uid : Nat) : CStr :=
  snprintf 256 (cs "/tmp/playerhud_cover_" ++ fmt_d (uid_as_int uid) ++ cs ".jpg")

/-- The command line built by `g_strdup_printf` in `maybe_load_cover`. -/
def curl_command (cover_path art_url : CStr) : CStr :=
  cs "curl -L -s --max-time 2 -o '" ++ cover_path ++ cs "' '" ++ art_url ++ cs "'"

/-- Source `maybe_load_cover`. -/
def maybe_load_cover (env : Env) (app : App) (fs : FileSystem)
    (art_url : Option CStr) : Outcome :=
  match art_url with
  | none => ⟨app, fs, []⟩
  | some [] => ⟨app, fs, []⟩
  | some (c :: t) =>
    let url : CStr := c :: t
    let app1 : App := { app with cover_path := cover_path_for env.uid }
    if str_has_prefix (some url) (some (cs "file://")) then
      let path := url.drop (cs "file://").length
      if g_file_test_exists fs path then
        ⟨{ app1 with img := gtk_image_set_from_file fs path }, fs,
          [Event.FileTest path, Event.ImageSetFromFile path]⟩
      else ⟨app1, fs, [Event.FileTest path]⟩
    else if str_has_prefix (some url) (some (cs "http://"))
        || str_has_prefix (some url) (some (cs "https://")) then
      let cmd := curl_command app1.cover_path url
      let r := env.system cmd fs
      if r.1 = 0 then
        if g_file_test_exists r.2 app1.cover_path then
          ⟨{ app1 with img := gtk_image_set_from_file r.2 app1.cover_path }, r.2,
            [Event.RunCommand cmd, Event.FileTest app1.cover_path,
              Event.ImageSetFromFile app1.cover_path]⟩
        else ⟨app1, r.2, [Event.RunCommand cmd, Event.FileTest app1.cover_path]⟩
      else ⟨app1, r.2, [Event.RunCommand cmd]⟩
    else ⟨app1, fs, []⟩

/-- The local variables of `parse_metadata_and_update`. -/
structure ParseLocals where
  title : Option CStr
  artUrl : Option CStr
  artist_buf : CStr
  deriving DecidableEq

/-- Locals at entry of the loop: `title = NULL`, `artUrl = NULL`, `artist_buf`
zeroed. -/
def ParseLocals.start : ParseLocals := ⟨none, none, []⟩

/-- GLib `g_variant_is_of_type (val, G_VARIANT_TYPE_STRING)`. -/
def g_variant_is_string : GVariant → Bool
  | GVariant.str _ => true
  | _ => false

/-- GLib `g_variant_get_string (val, NULL)`; `NULL` for a value that is not a
string. -/
def g_variant_get_string : GVariant → Option CStr
  | GVariant.str s => some s
  | _ => none

/-- One iteration of the loop of `parse_metadata_and_update` on the entry
`key`, `val`. In the last branch the value must be of type `as` and the
iterator over it must yield a first element for `artist_buf` to be written. -/
def parse_entry (l : ParseLocals) (key : CStr) (val : GVariant) : ParseLocals :=
  if key = cs "xesam:title" && g_variant_is_string val then
    { l with title := g_variant_get_string val }
  else if key = cs "mpris:artUrl" && g_variant_is_string val then
    { l with artUrl := g_variant_get_string val }
  else if key = cs "xesam:artist" then
    match val with
    | GVariant.strv (a :: _) => { l with artist_buf := g_strlcpy a 256 }
    | _ => l
  else l

/-- The whole loop, from the locals `l`, over the entries in order. -/
def parse_loop (l : ParseLocals) : List (CStr × GVariant) → ParseLocals
  | [] => l
  | (key, val) :: rest => parse_loop (parse_entry l key val) rest

/-- The em dash shown for a missing field. -/
def dash : CStr := cs "—"

/-- Source `parse_metadata_and_update`. -/
def parse_metadata_and_update (env : Env) (app : App) (fs : FileSystem)
    (metadata_dict : List (CStr × GVariant)) : Outcome :=
  let l := parse_loop ParseLocals.start metadata_dict
  let app1 : App := { app with lbl_title := set_label l.title (some dash) }
  let app2 : App :=
    { app1 with
      lbl_artist := set_label (if l.artist_buf = [] then none else some l.artist_buf)
        (some dash) }
  match l.artUrl with
  | some u => maybe_load_cover env app2 fs (some u)
  | none => ⟨app2, fs, []⟩

/-- Lines 151 to 185 of `poll_update`: the metadata call to the bound name
`name` (the value of `app->player_name`) and what follows it. -/
def poll_fetch (env : Env) (app : App) (fs : FileSystem) (name : CStr) : Outcome :=
  match env.getMetadata name with
  | none =>
    ⟨{ app with
        player_name := none
        lbl_title := set_label (some dash) none
        lbl_artist := set_label (some dash) none }, fs, [Event.GetMetadata name]⟩
  | some (GVariant.vardict entries) =>
    let o := parse_metadata_and_update env app fs entries
    ⟨o.app, o.fs, Event.GetMetadata name :: o.calls⟩
  | some _ => ⟨app, fs, [Event.GetMetadata name]⟩

/-- Source `poll_update`: one tick of the timer. -/
def poll_update (env : Env) (app : App) (fs : FileSystem) : Outcome :=
  if app.bus = false then ⟨app, fs, []⟩
  else
    match app.player_name with
    | some name => poll_fetch env app fs name
    | none =>
      let p := pick_mpris_player env
      match p.1 with
      | none =>
        ⟨{ app with
            player_name := none
            lbl_title := set_label (some (cs "No player")) none
            lbl_artist := set_label (some (cs "MPRIS not found")) none }, fs, p.2⟩
      | some name =>
        let o := poll_fetch env { app with player_name := some name } fs name
        ⟨o.app, o.fs, p.2 ++ o.calls⟩

/-- The `App` that `main` hands to the first `poll_update`: zeroed struct, bus
connection obtained (otherwise `main` has returned 1), fresh image, both
labels created with the em dash. -/
def main_init : App :=
  { img := GtkImage.empty
    lbl_title := dash
    lbl_artist := dash
    bus := true
    player_name := none
    cover_path := []
    centered_once := false }

/-! ## Observations and specification vocabulary -/

/-- The file the image was set from during `calls` (the result of `resolve` in
the words of the specification): the path of the first image load, `none` when
no image was loaded. -/
def resolved_path : List Event → Option CStr
  | [] => none
  | Event.ImageSetFromFile p :: _ => some p
  | _ :: rest => resolved_path rest

/-- The three fields as `parse_metadata_and_update` publishes them: a field is
`none` when the code takes the fallback (title, artist) or does not look at
the artwork reference at all. -/
structure MetadataSnapshot where
  title : Option CStr
  artist : Option CStr
  artworkRef : Option CStr
  deriving DecidableEq

/-- The test `text && *text` of `set_label` and `!art_url || !*art_url` of
`maybe_load_cover`: a `NULL` or empty string counts as no value. -/
def non_empty : Option CStr → Option CStr
  | some (c :: t) => some (c :: t)
  | _ => none

/-- The snapshot read off the locals of `parse_metadata_and_update` after its
loop. -/
def snapshot (metadata_dict : List (CStr × GVariant)) : MetadataSnapshot :=
  let l := parse_loop ParseLocals.start metadata_dict
  { title := non_empty l.title
    artist := non_empty (if l.artist_buf = [] then none else some l.artist_buf)
    artworkRef := non_empty l.artUrl }

/-- Specification predicate: `v` is the value of the last entry of `blob` with
key `key` whose value satisfies `ok`. -/
def LastValue (blob : List (CStr × GVariant)) (key : CStr) (ok : GVariant → Prop)
    (v : GVariant) : Prop :=
  ∃ pre post, blob = pre ++ (key, v) :: post ∧ ok v ∧ ∀ e ∈ post, e.1 = key → ¬ ok e.2

/-- A variant that holds a string. -/
def IsStr (v : GVariant) : Prop := ∃ s, v = GVariant.str s

/-- A variant that holds a string array with at least one element. -/
def IsStrvCons (v : GVariant) : Prop := ∃ a rest, v = GVariant.strv (a :: rest)

/-- A bus with one media session, `org.mpris.MediaPlayer2.X`, that reports the
metadata of the end-to-end example; downloads fail. -/
def envA : Env :=
  { uid := 1000
    listNames := some [cs ":1.7", cs "org.freedesktop.DBus", cs "org.mpris.MediaPlayer2.X"]
    getMetadata := fun _ => some (GVariant.vardict
      [(cs "xesam:title", GVariant.str (cs "Song")),
       (cs "xesam:artist", GVariant.strv [cs "A"]),
       (cs "mpris:artUrl", GVariant.str (cs "file:///tmp/a.jpg"))])
    system := fun _ fs => (1, fs) }

/-- A disk that holds the single file `/tmp/a.jpg`. -/
def fsA : FileSystem := fun p => if p = cs "/tmp/a.jpg" then some [1, 2, 3] else none

/-! ## Bookkeeping of the loop of `parse_metadata_and_update`, sample inputs -/

/-- Fold in which every element may overwrite the accumulator. -/
def lastSome {α β : Type} (f : α → Option β) (init : β) : List α → β
  | [] => init
  | x :: xs => lastSome f ((f x).getD init) xs

/-- What an entry writes to the string local read from `key` (`title` for
`xesam:title`, `artUrl` for `mpris:artUrl`), if anything. -/
def strUpd (key : CStr) (e : CStr × GVariant) : Option (Option CStr) :=
  if e.1 = key then
    match e.2 with
    | GVariant.str s => some (some s)
    | _ => none
  else none

/-- What an entry writes to `artist_buf`, if anything. -/
def artistUpd (e : CStr × GVariant) : Option CStr :=
  if e.1 = cs "xesam:artist" then
    match e.2 with
    | GVariant.strv (a :: _) => some (a.take 255)
    | _ => none
  else none

/-- A blob whose only entry is an artist list that starts with the empty
string. -/
def blob_empty_first_artist : List (CStr × GVariant) :=
  [(cs "xesam:artist", GVariant.strv [[], cs "B"])]

/-- A blob whose only entry is an artist list with one name of 256 bytes. -/
def blob_long_artist : List (CStr × GVariant) :=
  [(cs "xesam:artist", GVariant.strv [List.replicate 256 65])]

/-- The media-session name of the examples. -/
def name_X : CStr := cs "org.mpris.MediaPlayer2.X"

/-- The state of `main_init` once bound to `name_X`. -/
def app_bound : App := { main_init with player_name := some name_X }

/-- A bus on which `name_X` is registered but does not answer the metadata
call. -/
def env_lost : Env :=
  { uid := 1000
    listNames := some [name_X]
    getMetadata := fun _ => none
    system := fun _ fs => (1, fs) }

/-- A bus on which the metadata call is answered with a string instead of a
dictionary. -/
def env_malformed : Env :=
  { uid := 1000
    listNames := some [name_X]
    getMetadata := fun _ => some (GVariant.str (cs "oops"))
    system := fun _ fs => (1, fs) }

/-- A bus without any media-session name. -/
def env_no_player : Env :=
  { uid := 1000
    listNames := some [cs ":1.7", cs "org.freedesktop.DBus"]
    getMetadata := fun _ => none
    system := fun _ fs => (1, fs) }

/-- The metadata of the end-to-end example. -/
def blob_song : List (CStr × GVariant) :=
  [(cs "xesam:title", GVariant.str (cs "Song")),
   (cs "xesam:artist", GVariant.strv [cs "A"]),
   (cs "mpris:artUrl", GVariant.str (cs "file:///tmp/a.jpg"))]

/-! ## Properties -/

theorem cs_mpris : mpris_name_start = cs "org.mpris.MediaPlayer2." := rfl

theorem pick_loop_eq_some (names : List CStr) (n : CStr) :
    pick_mpris_player_loop names = some n ↔
      ∃ pre post, names = pre ++ n :: post ∧ g_str_has_prefix n mpris_name_start = true ∧
        ∀ m ∈ pre, g_str_has_prefix m mpris_name_start = false := by
  induction names with
  | nil => simp [pick_mpris_player_loop]
  | cons a rest ih =>
    unfold pick_mpris_player_loop
    by_cases ha : g_str_has_prefix a mpris_name_start = true
    · rw [if_pos ha]
      constructor
      · intro h
        injection h with h
        subst h
        exact ⟨[], rest, rfl, ha, by simp⟩
      · rintro ⟨pre, post, hsplit, _, hpre⟩
        cases pre with
        | nil =>
          simp only [List.nil_append, List.cons.injEq] at hsplit
          rw [hsplit.1]
        | cons b pre =>
          simp only [List.cons_append, List.cons.injEq] at hsplit
          have hb := hpre b (List.mem_cons_self _ _)
          rw [← hsplit.1, ha] at hb
          cases hb
    · rw [if_neg ha, ih]
      have ha2 : g_str_has_prefix a mpris_name_start = false := by simpa using ha
      constructor
      · rintro ⟨pre, post, hsplit, hn, hpre⟩
        refine ⟨a :: pre, post, by simp [hsplit], hn, ?_⟩
        intro m hm
        rcases List.mem_cons.mp hm with h | h
        · rw [h]; exact ha2
        · exact hpre m h
      · rintro ⟨pre, post, hsplit, hn, hpre⟩
        cases pre with
        | nil =>
          simp only [List.nil_append, List.cons.injEq] at hsplit
          rw [← hsplit.1, ha2] at hn
          cases hn
        | cons b pre =>
          simp only [List.cons_append, List.cons.injEq] at hsplit
          exact ⟨pre, post, hsplit.2, hn, fun m hm => hpre m (List.mem_cons_of_mem _ hm)⟩

theorem pick_loop_eq_none (names : List CStr) :
    pick_mpris_player_loop names = none ↔
      ∀ m ∈ names, g_str_has_prefix m mpris_name_start = false := by
  induction names with
  | nil => simp [pick_mpris_player_loop]
  | cons a rest ih =>
    unfold pick_mpris_player_loop
    by_cases ha : g_str_has_prefix a mpris_name_start = true
    · simp [ha]
    · have ha2 : g_str_has_prefix a mpris_name_start = false := by simpa using ha
      simp [ha2, ih]

/-- C1: `pick_mpris_player` returns the first name of a successful
enumeration, in the order of the reply, that starts with
`org.mpris.MediaPlayer2.`; it returns none exactly when the enumeration call
fails or no name of the reply has that prefix. It makes exactly one bus call. -/
theorem pick_mpris_player_first_match (env : Env) :
    (∀ names, env.listNames = some names → ∀ n,
      ((pick_mpris_player env).1 = some n ↔
        ∃ pre post, names = pre ++ n :: post ∧
          g_str_has_prefix n (cs "org.mpris.MediaPlayer2.") = true ∧
          ∀ m ∈ pre, g_str_has_prefix m (cs "org.mpris.MediaPlayer2.") = false)) ∧
    ((pick_mpris_player env).1 = none ↔
      env.listNames = none ∨
        ∃ names, env.listNames = some names ∧
          ∀ m ∈ names, g_str_has_prefix m (cs "org.mpris.MediaPlayer2.") = false) ∧
    (pick_mpris_player env).2 = [Event.ListNames] := by
  rw [← cs_mpris]
  refine ⟨?_, ?_, ?_⟩
  · intro names h n
    simp only [pick_mpris_player, h]
    exact pick_loop_eq_some names n
  · cases h : env.listNames with
    | none => simp [pick_mpris_player, h]
    | some names => simp [pick_mpris_player, h, pick_loop_eq_none]
  · cases h : env.listNames <;> simp [pick_mpris_player, h]

/-! ### The loop of `parse_metadata_and_update`: the last matching entry wins -/

theorem lastSome_unchanged {α β : Type} (f : α → Option β) (init : β) (xs : List α)
    (h : ∀ y ∈ xs, f y = none) : lastSome f init xs = init := by
  induction xs generalizing init with
  | nil => rfl
  | cons x xs ih =>
    have hx : f x = none := h x (List.mem_cons_self _ _)
    simp only [lastSome, hx, Option.getD_none]
    exact ih init (fun y hy => h y (List.mem_cons_of_mem _ hy))

theorem lastSome_split {α β : Type} (f : α → Option β) (init : β) (pre post : List α)
    (x : α) (b : β) (hx : f x = some b) (hpost : ∀ y ∈ post, f y = none) :
    lastSome f init (pre ++ x :: post) = b := by
  induction pre generalizing init with
  | nil =>
    simp only [List.nil_append, lastSome, hx, Option.getD_some]
    exact lastSome_unchanged f b post hpost
  | cons p pre ih =>
    simp only [List.cons_append, lastSome]
    exact ih _

theorem lastSome_cases {α β : Type} (f : α → Option β) (init : β) (xs : List α) :
    (lastSome f init xs = init ∧ ∀ y ∈ xs, f y = none) ∨
      ∃ pre x post b, xs = pre ++ x :: post ∧ f x = some b ∧
        (∀ y ∈ post, f y = none) ∧ lastSome f init xs = b := by
  induction xs generalizing init with
  | nil => left; exact ⟨rfl, by simp⟩
  | cons x xs ih =>
    rcases ih ((f x).getD init) with ⟨heq, hnone⟩ | ⟨pre, y, post, b, hsplit, hy, hpost, heq⟩
    · cases hx : f x with
      | none =>
        left
        refine ⟨?_, ?_⟩
        · simp only [lastSome]
          rw [heq, hx, Option.getD_none]
        · intro y hy
          rcases List.mem_cons.mp hy with h | h
          · rw [h]; exact hx
          · exact hnone y h
      | some b =>
        right
        refine ⟨[], x, xs, b, rfl, hx, hnone, ?_⟩
        simp only [lastSome]
        rw [heq, hx, Option.getD_some]
    · right
      refine ⟨x :: pre, y, post, b, by simp [hsplit], hy, hpost, ?_⟩
      simp only [lastSome]
      exact heq

theorem key_title_ne_artUrl : cs "xesam:title" ≠ cs "mpris:artUrl" := by decide
theorem key_title_ne_artist : cs "xesam:title" ≠ cs "xesam:artist" := by decide
theorem key_artUrl_ne_artist : cs "mpris:artUrl" ≠ cs "xesam:artist" := by decide

theorem parse_entry_title (l : ParseLocals) (k : CStr) (v : GVariant) :
    (parse_entry l k v).title = (strUpd (cs "xesam:title") (k, v)).getD l.title := by
  unfold parse_entry strUpd
  by_cases h1 : k = cs "xesam:title"
  · subst h1
    cases v <;>
      simp [g_variant_is_string, g_variant_get_string, key_title_ne_artUrl,
        key_title_ne_artist]
  · by_cases h2 : k = cs "mpris:artUrl"
    · subst h2
      cases v <;> simp [g_variant_is_string, h1, key_artUrl_ne_artist]
    · by_cases h3 : k = cs "xesam:artist"
      · subst h3
        rcases v with s | xs | es | ty <;> simp [h1, h2]
        cases xs <;> simp
      · simp [h1, h2, h3]

theorem parse_entry_artUrl (l : ParseLocals) (k : CStr) (v : GVariant) :
    (parse_entry l k v).artUrl = (strUpd (cs "mpris:artUrl") (k, v)).getD l.artUrl := by
  unfold parse_entry strUpd
  by_cases h1 : k = cs "xesam:title"
  · subst h1
    cases v <;>
      simp [g_variant_is_string, key_title_ne_artUrl, key_title_ne_artist]
  · by_cases h2 : k = cs "mpris:artUrl"
    · subst h2
      cases v <;>
        simp [g_variant_is_string, g_variant_get_string, h1, key_artUrl_ne_artist]
    · by_cases h3 : k = cs "xesam:artist"
      · subst h3
        rcases v with s | xs | es | ty <;> simp [h1, h2]
        cases xs <;> simp
      · simp [h1, h2, h3]

theorem parse_entry_artist (l : ParseLocals) (k : CStr) (v : GVariant) :
    (parse_entry l k v).artist_buf = (artistUpd (k, v)).getD l.artist_buf := by
  unfold parse_entry artistUpd
  by_cases h1 : k = cs "xesam:title"
  · subst h1
    cases v <;>
      simp [g_variant_is_string, key_title_ne_artUrl, key_title_ne_artist]
  · by_cases h2 : k = cs "mpris:artUrl"
    · subst h2
      cases v <;> simp [g_variant_is_string, h1, key_artUrl_ne_artist]
    · by_cases h3 : k = cs "xesam:artist"
      · subst h3
        rcases v with s | xs | es | ty <;> simp [h1, h2]
        cases xs <;> simp [g_strlcpy]
      · simp [h1, h2, h3]

theorem parse_loop_title (l : ParseLocals) (blob : List (CStr × GVariant)) :
    (parse_loop l blob).title = lastSome (strUpd (cs "xesam:title")) l.title blob := by
  induction blob generalizing l with
  | nil => rfl
  | cons e rest ih =>
    obtain ⟨k, v⟩ := e
    simp only [parse_loop, lastSome]
    rw [ih, parse_entry_title]

theorem parse_loop_artUrl (l : ParseLocals) (blob : List (CStr × GVariant)) :
    (parse_loop l blob).artUrl = lastSome (strUpd (cs "mpris:artUrl")) l.artUrl blob := by
  induction blob generalizing l with
  | nil => rfl
  | cons e rest ih =>
    obtain ⟨k, v⟩ := e
    simp only [parse_loop, lastSome]
    rw [ih, parse_entry_artUrl]

theorem parse_loop_artist (l : ParseLocals) (blob : List (CStr × GVariant)) :
    (parse_loop l blob).artist_buf = lastSome artistUpd l.artist_buf blob := by
  induction blob generalizing l with
  | nil => rfl
  | cons e rest ih =>
    obtain ⟨k, v⟩ := e
    simp only [parse_loop, lastSome]
    rw [ih, parse_entry_artist]

theorem strUpd_eq_none (key : CStr) (e : CStr × GVariant) :
    strUpd key e = none ↔ (e.1 = key → ¬ IsStr e.2) := by
  obtain ⟨k, v⟩ := e
  unfold strUpd IsStr
  by_cases h : k = key
  · cases v <;> simp [h]
  · simp [h]

theorem strUpd_eq_some (key : CStr) (e : CStr × GVariant) (b : Option CStr) :
    strUpd key e = some b ↔ ∃ s, e = (key, GVariant.str s) ∧ b = some s := by
  obtain ⟨k, v⟩ := e
  unfold strUpd
  by_cases h : k = key
  · cases v <;> simp [h, eq_comm]
  · simp [h]

theorem artistUpd_eq_none (e : CStr × GVariant) :
    artistUpd e = none ↔ (e.1 = cs "xesam:artist" → ¬ IsStrvCons e.2) := by
  obtain ⟨k, v⟩ := e
  unfold artistUpd IsStrvCons
  by_cases h : k = cs "xesam:artist"
  · rcases v with s | xs | es | ty <;> simp [h]
    cases xs <;> simp
  · simp [h]

theorem artistUpd_eq_some (e : CStr × GVariant) (b : CStr) :
    artistUpd e = some b ↔
      ∃ a rest, e = (cs "xesam:artist", GVariant.strv (a :: rest)) ∧ b = a.take 255 := by
  obtain ⟨k, v⟩ := e
  unfold artistUpd
  by_cases h : k = cs "xesam:artist"
  · rcases v with s | xs | es | ty <;> simp [h]
    cases xs <;> simp [eq_comm]
  · simp [h]

/-- The string local read from `key` ends as `some t` exactly when the last
string-valued entry for `key` holds `t`. -/
theorem lastStr_eq_some (key : CStr) (blob : List (CStr × GVariant)) (t : CStr) :
    lastSome (strUpd key) none blob = some t ↔
      LastValue blob key IsStr (GVariant.str t) := by
  constructor
  · intro h
    rcases lastSome_cases (strUpd key) none blob with ⟨heq, _⟩ |
      ⟨pre, x, post, b, hsplit, hx, hpost, heq⟩
    · rw [heq] at h; cases h
    · rw [heq] at h
      subst h
      obtain ⟨s, hxs, hs⟩ := (strUpd_eq_some key x _).mp hx
      injection hs with hs
      subst hs
      subst hxs
      exact ⟨pre, post, hsplit, ⟨t, rfl⟩,
        fun e he => (strUpd_eq_none key e).mp (hpost e he)⟩
  · rintro ⟨pre, post, hsplit, _, hpost⟩
    rw [hsplit]
    apply lastSome_split
    · exact (strUpd_eq_some key _ _).mpr ⟨t, rfl, rfl⟩
    · intro e he
      exact (strUpd_eq_none key e).mpr (hpost e he)

/-- The local `artist_buf` ends non-empty as `t` exactly when `t` is the first
255 bytes of the first element of the last `xesam:artist` entry that is a
string array with an element. -/
theorem lastArtist_eq (blob : List (CStr × GVariant)) (t : CStr) (ht : t ≠ []) :
    lastSome artistUpd [] blob = t ↔
      ∃ a rest, LastValue blob (cs "xesam:artist") IsStrvCons (GVariant.strv (a :: rest)) ∧
        t = a.take 255 := by
  constructor
  · intro h
    rcases lastSome_cases artistUpd [] blob with ⟨heq, _⟩ |
      ⟨pre, x, post, b, hsplit, hx, hpost, heq⟩
    · rw [heq] at h; exact absurd h.symm ht
    · rw [heq] at h
      subst h
      obtain ⟨a, rest, hxs, hb⟩ := (artistUpd_eq_some x _).mp hx
      subst hxs
      exact ⟨a, rest, ⟨pre, post, hsplit, ⟨a, rest, rfl⟩,
        fun e he => (artistUpd_eq_none e).mp (hpost e he)⟩, hb⟩
  · rintro ⟨a, rest, ⟨pre, post, hsplit, _, hpost⟩, hb⟩
    rw [hsplit]
    apply lastSome_split
    · exact (artistUpd_eq_some _ _).mpr ⟨a, rest, rfl, hb⟩
    · intro e he
      exact (artistUpd_eq_none e).mpr (hpost e he)

theorem non_empty_eq_some (x : Option CStr) (t : CStr) :
    non_empty x = some t ↔ x = some t ∧ t ≠ [] := by
  rcases x with _ | ⟨_ | ⟨c, u⟩⟩
  · simp [non_empty]
  · simp only [non_empty]
    constructor
    · intro h; cases h
    · rintro ⟨h, h2⟩
      injection h with h
      exact absurd h.symm h2
  · simp only [non_empty, Option.some.injEq]
    constructor
    · intro h; subst h; simp
    · intro h; exact h.1

theorem set_label_dash (x : Option CStr) :
    set_label x (some dash) = (non_empty x).getD dash := by
  rcases x with _ | ⟨_ | ⟨c, u⟩⟩ <;> rfl

theorem option_eq_none_iff_forall {α : Type} (o : Option α) (P : α → Prop)
    (h : ∀ t, o = some t ↔ P t) : o = none ↔ ∀ t, ¬ P t := by
  cases o with
  | none =>
    simp only [true_iff]
    intro t hP
    have := (h t).mpr hP
    cases this
  | some a =>
    constructor
    · intro h0; cases h0
    · intro hall
      exact absurd ((h a).mp rfl) (hall a)

/-- The calls and state of `maybe_load_cover` leave labels, bus handle and
bound name alone. -/
theorem maybe_load_cover_frame (env : Env) (app : App) (fs : FileSystem)
    (u : Option CStr) :
    (maybe_load_cover env app fs u).app.lbl_title = app.lbl_title ∧
    (maybe_load_cover env app fs u).app.lbl_artist = app.lbl_artist ∧
    (maybe_load_cover env app fs u).app.player_name = app.player_name ∧
    (maybe_load_cover env app fs u).app.bus = app.bus := by
  rcases u with _ | ⟨_ | ⟨c, t⟩⟩
  · exact ⟨rfl, rfl, rfl, rfl⟩
  · exact ⟨rfl, rfl, rfl, rfl⟩
  · simp only [maybe_load_cover]
    split_ifs <;> exact ⟨rfl, rfl, rfl, rfl⟩

theorem maybe_load_cover_non_empty (env : Env) (app : App) (fs : FileSystem)
    (u : Option CStr) :
    maybe_load_cover env app fs (non_empty u) = maybe_load_cover env app fs u := by
  rcases u with _ | ⟨_ | ⟨c, t⟩⟩ <;> rfl

/-- How `parse_metadata_and_update` publishes the snapshot of its loop. -/
theorem parse_metadata_and_update_eq (env : Env) (app : App) (fs : FileSystem)
    (blob : List (CStr × GVariant)) :
    parse_metadata_and_update env app fs blob =
      maybe_load_cover env
        { app with
          lbl_title := (snapshot blob).title.getD dash
          lbl_artist := (snapshot blob).artist.getD dash } fs (snapshot blob).artworkRef := by
  simp only [parse_metadata_and_update, snapshot, set_label_dash,
    maybe_load_cover_non_empty]
  cases h : (parse_loop ParseLocals.start blob).artUrl <;> rfl

theorem snapshot_artist_eq (blob : List (CStr × GVariant)) :
    (snapshot blob).artist = non_empty (some (lastSome artistUpd [] blob)) := by
  simp only [snapshot, parse_loop_artist, ParseLocals.start]
  cases h : lastSome artistUpd [] blob <;> simp [non_empty]

theorem pmu_labels (env : Env) (app : App) (fs : FileSystem)
    (blob : List (CStr × GVariant)) :
    (parse_metadata_and_update env app fs blob).app.lbl_title =
        (snapshot blob).title.getD dash ∧
      (parse_metadata_and_update env app fs blob).app.lbl_artist =
        (snapshot blob).artist.getD dash := by
  rw [parse_metadata_and_update_eq]
  exact ⟨(maybe_load_cover_frame env _ fs _).1, (maybe_load_cover_frame env _ fs _).2.1⟩

theorem snapshot_str_some (key : CStr) (blob : List (CStr × GVariant)) (t : CStr) :
    non_empty (lastSome (strUpd key) none blob) = some t ↔
      t ≠ [] ∧ LastValue blob key IsStr (GVariant.str t) := by
  rw [non_empty_eq_some, lastStr_eq_some, and_comm]

theorem snapshot_str_none (key : CStr) (blob : List (CStr × GVariant)) :
    non_empty (lastSome (strUpd key) none blob) = none ↔
      ∀ t, LastValue blob key IsStr (GVariant.str t) → t = [] := by
  rw [option_eq_none_iff_forall _ _ (snapshot_str_some key blob)]
  constructor
  · intro h t hl
    by_contra ht
    exact h t ⟨ht, hl⟩
  · rintro h t ⟨ht, hl⟩
    exact ht (h t hl)

theorem snapshot_artist_some (blob : List (CStr × GVariant)) (t : CStr) :
    (snapshot blob).artist = some t ↔
      t ≠ [] ∧ ∃ a rest,
        LastValue blob (cs "xesam:artist") IsStrvCons (GVariant.strv (a :: rest)) ∧
          t = a.take 255 := by
  rw [snapshot_artist_eq, non_empty_eq_some]
  constructor
  · rintro ⟨h, ht⟩
    injection h with h
    exact ⟨ht, (lastArtist_eq blob t ht).mp h⟩
  · rintro ⟨ht, h⟩
    exact ⟨congrArg some ((lastArtist_eq blob t ht).mpr h), ht⟩

theorem snapshot_artist_none (blob : List (CStr × GVariant)) :
    (snapshot blob).artist = none ↔
      ∀ a rest,
        LastValue blob (cs "xesam:artist") IsStrvCons (GVariant.strv (a :: rest)) →
          a = [] := by
  rw [option_eq_none_iff_forall _ _ (snapshot_artist_some blob)]
  constructor
  · intro h a rest hl
    by_contra ha
    refine h (a.take 255) ⟨?_, a, rest, hl, rfl⟩
    cases a with
    | nil => exact absurd rfl ha
    | cons c u => simp
  · rintro h t ⟨ht, a, rest, hl, hta⟩
    rw [h a rest hl] at hta
    exact ht hta

/-- The artist label after `parse_metadata_and_update` when the last
`xesam:artist` entry that is a string array with an element starts with `a`. -/
theorem pmu_artist_label (env : Env) (app : App) (fs : FileSystem)
    (pre post : List (CStr × GVariant)) (a : CStr) (rest : List CStr)
    (hlast : ∀ e ∈ post, e.1 = cs "xesam:artist" → ¬ IsStrvCons e.2) :
    (parse_metadata_and_update env app fs
        (pre ++ (cs "xesam:artist", GVariant.strv (a :: rest)) :: post)).app.lbl_artist =
      if a = [] then dash else a.take 255 := by
  rw [(pmu_labels env app fs _).2, snapshot_artist_eq]
  have hl : lastSome artistUpd []
      (pre ++ (cs "xesam:artist", GVariant.strv (a :: rest)) :: post) = a.take 255 := by
    apply lastSome_split
    · exact (artistUpd_eq_some _ _).mpr ⟨a, rest, rfl, rfl⟩
    · intro e he
      exact (artistUpd_eq_none e).mpr (hlast e he)
  rw [hl]
  cases a with
  | nil => rfl
  | cons c u => simp [non_empty]

/-- C2, as stated, fails: the blob holds a value for `xesam:artist`, of the
right type and not empty (a list of two strings), and yet the artist of the
snapshot is none and the label shows the dash. -/
theorem snapshot_artist_none_despite_value :
    (∃ a rest, (cs "xesam:artist", GVariant.strv (a :: rest)) ∈ blob_empty_first_artist) ∧
      (snapshot blob_empty_first_artist).artist = none ∧
      (parse_metadata_and_update envA main_init fsA
        blob_empty_first_artist).app.lbl_artist = dash :=
  ⟨⟨[], [cs "B"], List.mem_singleton.mpr rfl⟩, by decide, by decide⟩

/-- C2 (amended): `parse_metadata_and_update` is total and publishes the
snapshot of its loop (labels set to the field or to the dash, artwork
resolution run on the artwork reference). The title (artwork reference) is
some `t` exactly when `t` is not empty and is the string of the last
string-valued `xesam:title` (`mpris:artUrl`) entry, and none exactly when
there is no such entry or its string is empty; the artist is some `t` exactly
when `t` is not empty and is the first 255 bytes of the first element of the
last `xesam:artist` entry that is a string array with an element, and none
exactly when there is no such entry or that first element is empty. Entries
of other keys or of the wrong type change nothing. -/
theorem parse_metadata_snapshot_fields (env : Env) (app : App) (fs : FileSystem)
    (blob : List (CStr × GVariant)) :
    parse_metadata_and_update env app fs blob =
        maybe_load_cover env
          { app with
            lbl_title := (snapshot blob).title.getD dash
            lbl_artist := (snapshot blob).artist.getD dash } fs
          (snapshot blob).artworkRef ∧
      (∀ t, (snapshot blob).title = some t ↔
        t ≠ [] ∧ LastValue blob (cs "xesam:title") IsStr (GVariant.str t)) ∧
      ((snapshot blob).title = none ↔
        ∀ t, LastValue blob (cs "xesam:title") IsStr (GVariant.str t) → t = []) ∧
      (∀ t, (snapshot blob).artist = some t ↔
        t ≠ [] ∧ ∃ a rest,
          LastValue blob (cs "xesam:artist") IsStrvCons (GVariant.strv (a :: rest)) ∧
            t = a.take 255) ∧
      ((snapshot blob).artist = none ↔
        ∀ a rest,
          LastValue blob (cs "xesam:artist") IsStrvCons (GVariant.strv (a :: rest)) →
            a = []) ∧
      (∀ t, (snapshot blob).artworkRef = some t ↔
        t ≠ [] ∧ LastValue blob (cs "mpris:artUrl") IsStr (GVariant.str t)) ∧
      ((snapshot blob).artworkRef = none ↔
        ∀ t, LastValue blob (cs "mpris:artUrl") IsStr (GVariant.str t) → t = []) := by
  refine ⟨parse_metadata_and_update_eq env app fs blob, ?_, ?_,
    snapshot_artist_some blob, snapshot_artist_none blob, ?_, ?_⟩
  · intro t
    simp only [snapshot, parse_loop_title, ParseLocals.start]
    exact snapshot_str_some _ blob t
  · simp only [snapshot, parse_loop_title, ParseLocals.start]
    exact snapshot_str_none _ blob
  · intro t
    simp only [snapshot, parse_loop_artUrl, ParseLocals.start]
    exact snapshot_str_some _ blob t
  · simp only [snapshot, parse_loop_artUrl, ParseLocals.start]
    exact snapshot_str_none _ blob

set_option maxRecDepth 100000 in
/-- C3, as stated, fails: for an artist list whose first element has 256
bytes the artist label is not that element (it is its first 255 bytes). -/
theorem artist_label_truncated :
    (parse_metadata_and_update envA main_init fsA blob_long_artist).app.lbl_artist ≠
        List.replicate 256 65 ∧
      (parse_metadata_and_update envA main_init fsA blob_long_artist).app.lbl_artist =
        List.replicate 255 65 := by
  decide

/-- C3 (amended): when the last `xesam:artist` entry that is a string array
with an element is `a :: rest`, the artist label is the first 255 bytes of `a`
(the dash when `a` is empty); so it equals `a` when `a` is not empty and has at
most 255 bytes, and it never depends on `rest`. -/
theorem artist_is_first_element (env : Env) (app : App) (fs : FileSystem)
    (pre post : List (CStr × GVariant)) (a : CStr) (rest : List CStr)
    (hlast : ∀ e ∈ post, e.1 = cs "xesam:artist" → ¬ IsStrvCons e.2) :
    (parse_metadata_and_update env app fs
        (pre ++ (cs "xesam:artist", GVariant.strv (a :: rest)) :: post)).app.lbl_artist =
        (if a = [] then dash else a.take 255) ∧
      (a ≠ [] → a.length ≤ 255 →
        (parse_metadata_and_update env app fs
          (pre ++ (cs "xesam:artist", GVariant.strv (a :: rest)) :: post)).app.lbl_artist
          = a) ∧
      ∀ rest2,
        (parse_metadata_and_update env app fs
          (pre ++ (cs "xesam:artist", GVariant.strv (a :: rest2)) :: post)).app.lbl_artist =
        (parse_metadata_and_update env app fs
          (pre ++ (cs "xesam:artist", GVariant.strv (a :: rest)) :: post)).app.lbl_artist := by
  refine ⟨pmu_artist_label env app fs pre post a rest hlast, ?_, ?_⟩
  · intro ha hlen
    rw [pmu_artist_label env app fs pre post a rest hlast, if_neg ha]
    exact List.take_of_length_le hlen
  · intro rest2
    rw [pmu_artist_label env app fs pre post a rest hlast,
      pmu_artist_label env app fs pre post a rest2 hlast]

/-- Witness of C3 (amended): the title entry after the artist list does not
disturb it; the label is the first of the two artists. -/
theorem artist_is_first_element_witness :
    (∀ e ∈ [(cs "xesam:title", GVariant.str (cs "Song"))],
        e.1 = cs "xesam:artist" → ¬ IsStrvCons e.2) ∧
      (parse_metadata_and_update envA main_init fsA
        ([] ++ (cs "xesam:artist", GVariant.strv [cs "A", cs "B"]) ::
          [(cs "xesam:title", GVariant.str (cs "Song"))])).app.lbl_artist = cs "A" :=
  have h : ∀ e ∈ [(cs "xesam:title", GVariant.str (cs "Song"))],
      e.1 = cs "xesam:artist" → ¬ IsStrvCons e.2 := by
    intro e he hk
    rw [List.mem_singleton.mp he] at hk
    exact absurd hk key_title_ne_artist
  ⟨h, (artist_is_first_element envA main_init fsA [] _ (cs "A") [cs "B"] h).2.1
    (by decide) (by decide)⟩

/-! ### `maybe_load_cover` -/

theorem cs_file : cs "file://" = [102, 105, 108, 101, 58, 47, 47] := by decide
theorem cs_http : cs "http://" = [104, 116, 116, 112, 58, 47, 47] := by decide
theorem cs_https : cs "https://" = [104, 116, 116, 112, 115, 58, 47, 47] := by decide

/-- The body of `maybe_load_cover` for a reference `file://` followed by `p`. -/
theorem maybe_load_cover_file (env : Env) (app : App) (fs : FileSystem) (p : CStr) :
    maybe_load_cover env app fs (some (cs "file://" ++ p)) =
      if g_file_test_exists fs p then
        ⟨{ app with
            cover_path := cover_path_for env.uid
            img := gtk_image_set_from_file fs p }, fs,
          [Event.FileTest p, Event.ImageSetFromFile p]⟩
      else ⟨{ app with cover_path := cover_path_for env.uid }, fs, [Event.FileTest p]⟩ := by
  have h1 : str_has_prefix (some (cs "file://" ++ p)) (some (cs "file://")) = true := by
    simp only [ str_has_prefix, g_str_has_prefix]
    exact List.isPrefixOf_iff_prefix.mpr (List.prefix_append _ _)
  have h2 : (cs "file://" ++ p).drop (cs "file://").length = p := List.drop_left _ _
  generalize hurl : cs "file://" ++ p = url at h1 h2
  cases url with
  | nil =>
    rw [cs_file] at hurl
    cases hurl
  | cons c t =>
    simp only [maybe_load_cover]
    rw [if_pos h1, h2]

/-- A reference that starts with `http://` or `https://` is not empty and
does not start with `file://`. -/
theorem http_not_file (url : CStr)
    (hurl : g_str_has_prefix url (cs "http://") = true ∨
      g_str_has_prefix url (cs "https://") = true) :
    ∃ t, url = 104 :: t ∧ g_str_has_prefix url (cs "file://") = false := by
  rw [cs_http, cs_https] at hurl
  rw [cs_file]
  cases url with
  | nil => simp [ g_str_has_prefix, List.isPrefixOf] at hurl
  | cons c t =>
    have hc : c = 104 := by
      rcases hurl with h | h <;>
        · simp only [ g_str_has_prefix, List.isPrefixOf, Bool.and_eq_true,
            beq_iff_eq] at h
          exact h.1.symm
    subst hc
    refine ⟨t, rfl, ?_⟩
    simp [ g_str_has_prefix, List.isPrefixOf]

/-- The body of `maybe_load_cover` for a reference that starts with `http://`
or `https://`. -/
theorem maybe_load_cover_http (env : Env) (app : App) (fs : FileSystem) (url : CStr)
    (hurl : g_str_has_prefix url (cs "http://") = true ∨
      g_str_has_prefix url (cs "https://") = true) :
    maybe_load_cover env app fs (some url) =
      if (env.system (curl_command (cover_path_for env.uid) url) fs).1 = 0 then
        if g_file_test_exists (env.system (curl_command (cover_path_for env.uid) url) fs).2
            (cover_path_for env.uid) then
          ⟨{ app with
              cover_path := cover_path_for env.uid
              img := gtk_image_set_from_file
                (env.system (curl_command (cover_path_for env.uid) url) fs).2
                (cover_path_for env.uid) },
            (env.system (curl_command (cover_path_for env.uid) url) fs).2,
            [Event.RunCommand (curl_command (cover_path_for env.uid) url),
              Event.FileTest (cover_path_for env.uid),
              Event.ImageSetFromFile (cover_path_for env.uid)]⟩
        else
          ⟨{ app with cover_path := cover_path_for env.uid },
            (env.system (curl_command (cover_path_for env.uid) url) fs).2,
            [Event.RunCommand (curl_command (cover_path_for env.uid) url),
              Event.FileTest (cover_path_for env.uid)]⟩
      else
        ⟨{ app with cover_path := cover_path_for env.uid },
          (env.system (curl_command (cover_path_for env.uid) url) fs).2,
          [Event.RunCommand (curl_command (cover_path_for env.uid) url)]⟩ := by
  obtain ⟨t, ht, hfile⟩ := http_not_file url hurl
  have hor : ( str_has_prefix (some url) (some (cs "http://")) ||
      str_has_prefix (some url) (some (cs "https://"))) = true := by
    simp only [ str_has_prefix, Bool.or_eq_true]
    exact hurl
  subst ht
  simp only [maybe_load_cover]
  rw [if_neg (by simpa [ str_has_prefix] using hfile), if_pos hor]

/-- The calls of `maybe_load_cover` are file tests, commands and image loads:
no bus call. -/
theorem maybe_load_cover_no_bus_call (env : Env) (app : App) (fs : FileSystem)
    (u : Option CStr) :
    ∀ e ∈ (maybe_load_cover env app fs u).calls,
      e ≠ Event.ListNames ∧ ∀ d, e ≠ Event.GetMetadata d := by
  rcases u with _ | ⟨_ | ⟨c, t⟩⟩
  · intro e he; cases he
  · intro e he; cases he
  · simp only [maybe_load_cover]
    split_ifs <;> intro e he <;> simp at he <;>
      first
        | (subst he; exact ⟨by simp, by simp⟩)
        | (rcases he with he | he <;> subst he <;> exact ⟨by simp, by simp⟩)
        | (rcases he with he | he | he <;> subst he <;> exact ⟨by simp, by simp⟩)

/-! ### The cache slot path is never truncated -/

theorem decimal_length (n : Nat) (h : n < 10 ^ 10) : (decimal n).length ≤ 10 := by
  unfold decimal
  rw [List.length_map]
  exact Nat.toDigitsCore_length 10 (by decide) (n + 1) n 10 h (by decide)

theorem uid_as_int_range (uid : Nat) :
    -(2 ^ 31 : Int) ≤ uid_as_int uid ∧ uid_as_int uid < 2 ^ 31 := by
  unfold uid_as_int
  have h := Nat.mod_lt uid (show 0 < 2 ^ 32 by decide)
  split_ifs with hlt <;> constructor <;> omega

theorem fmt_d_length (i : Int) (hlo : -(2 ^ 31 : Int) ≤ i) (hhi : i < 2 ^ 31) :
    (fmt_d i).length ≤ 11 := by
  cases i with
  | ofNat n =>
    have hn : n < 10 ^ 10 := by
      have : (n : Int) < 2 ^ 31 := hhi
      omega
    have := decimal_length n hn
    simp only [fmt_d]
    omega
  | negSucc n =>
    have hn : n + 1 < 10 ^ 10 := by
      have : -(2 ^ 31 : Int) ≤ Int.negSucc n := hlo
      rw [Int.negSucc_eq] at this
      omega
    have := decimal_length (n + 1) hn
    simp only [fmt_d, List.length_cons]
    omega

theorem cover_path_for_eq (uid : Nat) :
    cover_path_for uid =
      cs "/tmp/playerhud_cover_" ++ fmt_d (uid_as_int uid) ++ cs ".jpg" := by
  unfold cover_path_for snprintf
  apply List.take_of_length_le
  have h1 : (cs "/tmp/playerhud_cover_").length = 21 := by decide
  have h2 : (cs ".jpg").length = 4 := by decide
  have h3 := fmt_d_length (uid_as_int uid) (uid_as_int_range uid).1 (uid_as_int_range uid).2
  rw [List.length_append, List.length_append, h1, h2]
  omega

theorem cover_path_for_small (uid : Nat) (h : uid < 2 ^ 31) :
    cover_path_for uid = cs "/tmp/playerhud_cover_" ++ decimal uid ++ cs ".jpg" := by
  rw [cover_path_for_eq]
  have hmod : uid % 2 ^ 32 = uid := Nat.mod_eq_of_lt (by omega)
  have hint : uid_as_int uid = Int.ofNat uid := by
    unfold uid_as_int
    rw [hmod, if_pos h]
    rfl
  rw [hint]
  rfl

/-! ### `poll_update` -/

theorem set_label_dash_none : set_label (some dash) none = dash := by decide

theorem poll_fetch_failed (env : Env) (app : App) (fs : FileSystem) (name : CStr)
    (h : env.getMetadata name = none) :
    poll_fetch env app fs name =
      ⟨{ app with player_name := none, lbl_title := dash, lbl_artist := dash }, fs,
        [Event.GetMetadata name]⟩ := by
  simp only [poll_fetch, h, set_label_dash_none]

theorem poll_fetch_dict (env : Env) (app : App) (fs : FileSystem) (name : CStr)
    (entries : List (CStr × GVariant))
    (h : env.getMetadata name = some (GVariant.vardict entries)) :
    poll_fetch env app fs name =
      ⟨(parse_metadata_and_update env app fs entries).app,
        (parse_metadata_and_update env app fs entries).fs,
        Event.GetMetadata name :: (parse_metadata_and_update env app fs entries).calls⟩ := by
  simp only [poll_fetch, h]

theorem poll_fetch_not_dict (env : Env) (app : App) (fs : FileSystem) (name : CStr)
    (v : GVariant) (h : env.getMetadata name = some v)
    (hv : ∀ entries, v ≠ GVariant.vardict entries) :
    poll_fetch env app fs name = ⟨app, fs, [Event.GetMetadata name]⟩ := by
  cases v with
  | vardict entries => exact absurd rfl (hv entries)
  | str s => simp only [poll_fetch, h]
  | strv xs => simp only [poll_fetch, h]
  | other ty => simp only [poll_fetch, h]

theorem pmu_frame (env : Env) (app : App) (fs : FileSystem)
    (blob : List (CStr × GVariant)) :
    (parse_metadata_and_update env app fs blob).app.player_name = app.player_name ∧
      (parse_metadata_and_update env app fs blob).app.bus = app.bus := by
  rw [parse_metadata_and_update_eq]
  exact ⟨(maybe_load_cover_frame env _ fs _).2.2.1, (maybe_load_cover_frame env _ fs _).2.2.2⟩

theorem pmu_no_bus_call (env : Env) (app : App) (fs : FileSystem)
    (blob : List (CStr × GVariant)) :
    ∀ e ∈ (parse_metadata_and_update env app fs blob).calls,
      e ≠ Event.ListNames ∧ ∀ d, e ≠ Event.GetMetadata d := by
  rw [parse_metadata_and_update_eq]
  exact maybe_load_cover_no_bus_call env _ fs _

/-- A metadata call that gets a reply keeps the bound name and the bus. -/
theorem poll_fetch_replied (env : Env) (app : App) (fs : FileSystem) (name : CStr)
    (h : env.getMetadata name ≠ none) :
    (poll_fetch env app fs name).app.player_name = app.player_name ∧
      (poll_fetch env app fs name).app.bus = app.bus := by
  cases hv : env.getMetadata name with
  | none => exact absurd hv h
  | some v =>
    cases v with
    | vardict entries =>
      rw [poll_fetch_dict env app fs name entries hv]
      exact pmu_frame env app fs entries
    | str s => simp only [poll_fetch, hv, and_self]
    | strv xs => simp only [poll_fetch, hv, and_self]
    | other ty => simp only [poll_fetch, hv, and_self]

/-- The calls of `poll_fetch`: the metadata call first, no enumeration. -/
theorem poll_fetch_calls (env : Env) (app : App) (fs : FileSystem) (name : CStr) :
    (∃ rest, (poll_fetch env app fs name).calls = Event.GetMetadata name :: rest) ∧
      Event.ListNames ∉ (poll_fetch env app fs name).calls := by
  cases hv : env.getMetadata name with
  | none =>
    rw [poll_fetch_failed env app fs name hv]
    exact ⟨⟨[], rfl⟩, by simp⟩
  | some v =>
    cases v with
    | vardict entries =>
      rw [poll_fetch_dict env app fs name entries hv]
      refine ⟨⟨_, rfl⟩, ?_⟩
      intro hmem
      rcases List.mem_cons.mp hmem with h | h
      · cases h
      · exact (pmu_no_bus_call env app fs entries _ h).1 rfl
    | str s => simp only [poll_fetch, hv]; exact ⟨⟨[], rfl⟩, by simp⟩
    | strv xs => simp only [poll_fetch, hv]; exact ⟨⟨[], rfl⟩, by simp⟩
    | other ty => simp only [poll_fetch, hv]; exact ⟨⟨[], rfl⟩, by simp⟩

theorem poll_update_bound (env : Env) (app : App) (fs : FileSystem) (name : CStr)
    (hbus : app.bus = true) (hname : app.player_name = some name) :
    poll_update env app fs = poll_fetch env app fs name := by
  simp only [poll_update, hbus, hname, Bool.true_eq_false, if_false]

theorem poll_update_not_found (env : Env) (app : App) (fs : FileSystem)
    (hbus : app.bus = true) (hname : app.player_name = none)
    (hpick : (pick_mpris_player env).1 = none) :
    poll_update env app fs =
      ⟨{ app with
          player_name := none
          lbl_title := cs "No player"
          lbl_artist := cs "MPRIS not found" }, fs, (pick_mpris_player env).2⟩ := by
  simp only [poll_update, hbus, hname, hpick, Bool.true_eq_false, if_false]
  rfl

theorem poll_update_found (env : Env) (app : App) (fs : FileSystem) (name : CStr)
    (hbus : app.bus = true) (hname : app.player_name = none)
    (hpick : (pick_mpris_player env).1 = some name) :
    poll_update env app fs =
      ⟨(poll_fetch env { app with player_name := some name } fs name).app,
        (poll_fetch env { app with player_name := some name } fs name).fs,
        (pick_mpris_player env).2 ++
          (poll_fetch env { app with player_name := some name } fs name).calls⟩ := by
  simp only [poll_update, hbus, hname, hpick, Bool.true_eq_false, if_false]

theorem pick_calls (env : Env) : (pick_mpris_player env).2 = [Event.ListNames] := by
  cases h : env.listNames <;> simp [pick_mpris_player, h]

/-- The bus handle is never changed by a tick: it stays as `main` set it. -/
theorem poll_update_bus (env : Env) (app : App) (fs : FileSystem) :
    (poll_update env app fs).app.bus = app.bus := by
  cases hbus : app.bus with
  | false => simp [poll_update, hbus]
  | true =>
    cases hname : app.player_name with
    | some name =>
      rw [poll_update_bound env app fs name hbus hname]
      cases hv : env.getMetadata name with
      | none => rw [poll_fetch_failed env app fs name hv]; exact hbus
      | some v =>
        rw [(poll_fetch_replied env app fs name (by rw [hv]; exact Option.some_ne_none v)).2]
        exact hbus
    | none =>
      cases hpick : (pick_mpris_player env).1 with
      | none => rw [poll_update_not_found env app fs hbus hname hpick]; exact hbus
      | some name =>
        rw [poll_update_found env app fs name hbus hname hpick]
        cases hv : env.getMetadata name with
        | none => rw [poll_fetch_failed env _ fs name hv]; exact hbus
        | some v =>
          rw [(poll_fetch_replied env _ fs name (by rw [hv]; exact Option.some_ne_none v)).2]
          exact hbus

/-- A tick that starts with no bound name, on a connected bus, starts with the
enumeration call. -/
theorem poll_update_unbound_calls (env : Env) (app : App) (fs : FileSystem)
    (hbus : app.bus = true) (hname : app.player_name = none) :
    ∃ rest, (poll_update env app fs).calls = Event.ListNames :: rest := by
  cases hpick : (pick_mpris_player env).1 with
  | none =>
    rw [poll_update_not_found env app fs hbus hname hpick, pick_calls]
    exact ⟨[], rfl⟩
  | some name =>
    rw [poll_update_found env app fs name hbus hname hpick, pick_calls]
    exact ⟨_, rfl⟩

/-- A tick that starts with a bound name makes no enumeration call. -/
theorem poll_update_bound_no_locate (env : Env) (app : App) (fs : FileSystem)
    (name : CStr) (hname : app.player_name = some name) :
    Event.ListNames ∉ (poll_update env app fs).calls := by
  cases hbus : app.bus with
  | false => simp [poll_update, hbus]
  | true =>
    rw [poll_update_bound env app fs name hbus hname]
    exact (poll_fetch_calls env app fs name).2

/-- C4: with a peer bound (and the bus connected, as it is whenever `main`
runs the loop), a tick whose metadata call fails makes that one call and
leaves no peer bound, and the next tick, whatever the bus answers then, starts
with the enumeration call of the locator, before any metadata call; a tick
that starts with a peer bound never makes the enumeration call. -/
theorem poll_update_self_healing (env env2 : Env) (app : App) (fs : FileSystem)
    (name : CStr) (hname : app.player_name = some name) :
    (app.bus = true → env.getMetadata name = none →
      (poll_update env app fs).calls = [Event.GetMetadata name] ∧
      (poll_update env app fs).app.player_name = none ∧
      ∃ rest, (poll_update env2 (poll_update env app fs).app
        (poll_update env app fs).fs).calls = Event.ListNames :: rest) ∧
    Event.ListNames ∉ (poll_update env app fs).calls := by
  refine ⟨?_, poll_update_bound_no_locate env app fs name hname⟩
  intro hbus hfail
  rw [poll_update_bound env app fs name hbus hname, poll_fetch_failed env app fs name hfail]
  exact ⟨rfl, rfl, poll_update_unbound_calls env2 _ fs hbus rfl⟩

/-- Witness of C4: bound to `name_X`, which no longer answers. -/
theorem poll_update_self_healing_witness :
    app_bound.player_name = some name_X ∧
      (poll_update env_lost app_bound fsA).app.player_name = none :=
  ⟨rfl, ((poll_update_self_healing env_lost envA app_bound fsA name_X rfl).1 rfl rfl).2.1⟩

/-- C5, as stated, fails: the reply wraps a string, not a dictionary, and the
peer is still bound after the tick. -/
theorem malformed_reply_keeps_binding :
    app_bound.player_name = some name_X ∧
      env_malformed.getMetadata name_X = some (GVariant.str (cs "oops")) ∧
      (poll_update env_malformed app_bound fsA).app.player_name = some name_X :=
  ⟨rfl, rfl, by decide⟩

/-- C5 (amended): a tick, with a peer bound, whose metadata call returns a
reply wrapping a value that is not a dictionary makes that one call and
changes nothing: labels, image and files stay, the peer stays bound, and the
next tick does not call the locator. -/
theorem poll_update_malformed_reply (env env2 : Env) (app : App) (fs : FileSystem)
    (name : CStr) (v : GVariant) (hbus : app.bus = true)
    (hname : app.player_name = some name) (hreply : env.getMetadata name = some v)
    (hv : ∀ entries, v ≠ GVariant.vardict entries) :
    (poll_update env app fs).app = app ∧
      (poll_update env app fs).fs = fs ∧
      (poll_update env app fs).calls = [Event.GetMetadata name] ∧
      (poll_update env app fs).app.player_name = some name ∧
      Event.ListNames ∉ (poll_update env2 (poll_update env app fs).app
        (poll_update env app fs).fs).calls := by
  rw [poll_update_bound env app fs name hbus hname,
    poll_fetch_not_dict env app fs name v hreply hv]
  exact ⟨rfl, rfl, rfl, hname, poll_update_bound_no_locate env2 app fs name hname⟩

/-- Witness of C5 (amended). -/
theorem poll_update_malformed_reply_witness :
    app_bound.bus = true ∧ app_bound.player_name = some name_X ∧
      env_malformed.getMetadata name_X = some (GVariant.str (cs "oops")) ∧
      (poll_update env_malformed app_bound fsA).app = app_bound :=
  ⟨rfl, rfl, rfl,
    (poll_update_malformed_reply env_malformed envA app_bound fsA name_X
      (GVariant.str (cs "oops")) rfl rfl rfl (fun _ h => GVariant.noConfusion h)).1⟩

/-- C6: for a reference `file://` followed by `p`, the image is set from a
file, and then from exactly `p` with the data found there, if and only if `p`
exists at the time of the call; otherwise no image is set and the image shown
stays; in both cases the files are unchanged and no command is run. -/
theorem maybe_load_cover_local (env : Env) (app : App) (fs : FileSystem) (p : CStr) :
    (resolved_path (maybe_load_cover env app fs (some (cs "file://" ++ p))).calls = some p ↔
        g_file_test_exists fs p = true) ∧
      (g_file_test_exists fs p = true →
        (maybe_load_cover env app fs (some (cs "file://" ++ p))).app.img =
          GtkImage.file p (fs p)) ∧
      (g_file_test_exists fs p = false →
        resolved_path (maybe_load_cover env app fs (some (cs "file://" ++ p))).calls = none ∧
        (maybe_load_cover env app fs (some (cs "file://" ++ p))).app.img = app.img) ∧
      (maybe_load_cover env app fs (some (cs "file://" ++ p))).fs = fs ∧
      ∀ c, Event.RunCommand c ∉
        (maybe_load_cover env app fs (some (cs "file://" ++ p))).calls := by
  rw [maybe_load_cover_file]
  cases h : g_file_test_exists fs p <;>
    simp [resolved_path, gtk_image_set_from_file]

/-- C7: for a reference that starts with `http://` or `https://`, the download
command is run once; if it returns a status other than 0, or the cache slot
does not exist afterwards, no image is set and the image shown stays as it
was; if it returns 0 and the slot exists, the image is set from the slot; the
slot is `/tmp/playerhud_cover_<uid>.jpg`, the user id printed with `%d`, and
depends on nothing else. -/
theorem maybe_load_cover_remote (env : Env) (app : App) (fs : FileSystem) (url : CStr)
    (hurl : g_str_has_prefix url (cs "http://") = true ∨
      g_str_has_prefix url (cs "https://") = true) :
    (((env.system (curl_command (cover_path_for env.uid) url) fs).1 ≠ 0 ∨
        g_file_test_exists (env.system (curl_command (cover_path_for env.uid) url) fs).2
          (cover_path_for env.uid) = false) →
      resolved_path (maybe_load_cover env app fs (some url)).calls = none ∧
      (maybe_load_cover env app fs (some url)).app.img = app.img) ∧
    ((env.system (curl_command (cover_path_for env.uid) url) fs).1 = 0 →
      g_file_test_exists (env.system (curl_command (cover_path_for env.uid) url) fs).2
          (cover_path_for env.uid) = true →
      resolved_path (maybe_load_cover env app fs (some url)).calls =
          some (cover_path_for env.uid) ∧
      (maybe_load_cover env app fs (some url)).app.img =
        GtkImage.file (cover_path_for env.uid)
          ((env.system (curl_command (cover_path_for env.uid) url) fs).2
            (cover_path_for env.uid))) ∧
    cover_path_for env.uid =
      cs "/tmp/playerhud_cover_" ++ fmt_d (uid_as_int env.uid) ++ cs ".jpg" ∧
    (env.uid < 2 ^ 31 →
      cover_path_for env.uid = cs "/tmp/playerhud_cover_" ++ decimal env.uid ++ cs ".jpg") ∧
    (∃ rest, (maybe_load_cover env app fs (some url)).calls =
      Event.RunCommand (curl_command (cover_path_for env.uid) url) :: rest) ∧
    (maybe_load_cover env app fs (some url)).fs =
      (env.system (curl_command (cover_path_for env.uid) url) fs).2 := by
  rw [maybe_load_cover_http env app fs url hurl]
  refine ⟨?_, ?_, cover_path_for_eq env.uid, cover_path_for_small env.uid, ?_, ?_⟩
  · rintro (h | h)
    · rw [if_neg h]
      exact ⟨rfl, rfl⟩
    · by_cases h0 : (env.system (curl_command (cover_path_for env.uid) url) fs).1 = 0
      · rw [if_pos h0, if_neg (by simp [h])]
        exact ⟨rfl, rfl⟩
      · rw [if_neg h0]
        exact ⟨rfl, rfl⟩
  · intro h0 hex
    rw [if_pos h0, if_pos hex]
    exact ⟨rfl, rfl⟩
  · split_ifs <;> exact ⟨_, rfl⟩
  · split_ifs <;> rfl

/-- Witness of C7: a download that fails leaves the image of `main_init`. -/
theorem maybe_load_cover_remote_witness :
    ( g_str_has_prefix (cs "http://h/c.jpg") (cs "http://") = true ∨
        g_str_has_prefix (cs "http://h/c.jpg") (cs "https://") = true) ∧
      (maybe_load_cover envA main_init fsA (some (cs "http://h/c.jpg"))).app.img =
        main_init.img :=
  ⟨Or.inl (by decide),
    ((maybe_load_cover_remote envA main_init fsA (cs "http://h/c.jpg")
      (Or.inl (by decide))).1 (Or.inl (by decide))).2⟩

/-- C8: a tick that starts with no peer bound (bus connected) on a bus whose
names hold no media-session name: the locator returns none, the labels show
`No player` and `MPRIS not found`, the only call is the enumeration (no
metadata call), files and image stay, and no peer is bound afterwards. -/
theorem poll_update_no_player (env : Env) (app : App) (fs : FileSystem)
    (names : List CStr) (hbus : app.bus = true) (hname : app.player_name = none)
    (hnames : env.listNames = some names)
    (hno : ∀ n ∈ names, g_str_has_prefix n (cs "org.mpris.MediaPlayer2.") = false) :
    (pick_mpris_player env).1 = none ∧
      (poll_update env app fs).app.lbl_title = cs "No player" ∧
      (poll_update env app fs).app.lbl_artist = cs "MPRIS not found" ∧
      (poll_update env app fs).calls = [Event.ListNames] ∧
      (∀ d, Event.GetMetadata d ∉ (poll_update env app fs).calls) ∧
      (poll_update env app fs).app.player_name = none ∧
      (poll_update env app fs).fs = fs ∧
      (poll_update env app fs).app.img = app.img := by
  have hpick : (pick_mpris_player env).1 = none := by
    simp only [pick_mpris_player, hnames]
    exact (pick_loop_eq_none names).mpr hno
  rw [poll_update_not_found env app fs hbus hname hpick, pick_calls]
  exact ⟨hpick, rfl, rfl, rfl, by simp, rfl, rfl, rfl⟩

/-- Witness of C8: the first tick of the program on a bus without players. -/
theorem poll_update_no_player_witness :
    main_init.bus = true ∧ main_init.player_name = none ∧
      (poll_update env_no_player main_init fsA).app.lbl_title = cs "No player" :=
  ⟨rfl, rfl,
    (poll_update_no_player env_no_player main_init fsA
      [cs ":1.7", cs "org.freedesktop.DBus"] rfl rfl rfl (by decide)).2.1⟩

theorem snapshot_blob_song :
    snapshot blob_song =
      ⟨some (cs "Song"), some (cs "A"), some (cs "file://" ++ cs "/tmp/a.jpg")⟩ := by
  decide

/-- C9: starting with no peer bound (bus connected), on a bus whose first
media-session name is `org.mpris.MediaPlayer2.X` and whose metadata reply is
title `Song`, artist list `A`, artwork `file:///tmp/a.jpg`, with `/tmp/a.jpg`
on disk, one tick shows title `Song` and artist `A`, sets the image from
`/tmp/a.jpg`, and ends bound to that name. -/
theorem poll_update_end_to_end (env : Env) (app : App) (fs : FileSystem)
    (pre post : List CStr) (data : FileData)
    (hbus : app.bus = true) (hname : app.player_name = none)
    (hnames : env.listNames = some (pre ++ cs "org.mpris.MediaPlayer2.X" :: post))
    (hpre : ∀ m ∈ pre, g_str_has_prefix m (cs "org.mpris.MediaPlayer2.") = false)
    (hreply : env.getMetadata (cs "org.mpris.MediaPlayer2.X") =
      some (GVariant.vardict
        [(cs "xesam:title", GVariant.str (cs "Song")),
         (cs "xesam:artist", GVariant.strv [cs "A"]),
         (cs "mpris:artUrl", GVariant.str (cs "file:///tmp/a.jpg"))]))
    (hfile : fs (cs "/tmp/a.jpg") = some data) :
    (poll_update env app fs).app.lbl_title = cs "Song" ∧
      (poll_update env app fs).app.lbl_artist = cs "A" ∧
      (poll_update env app fs).app.img = GtkImage.file (cs "/tmp/a.jpg") (some data) ∧
      resolved_path (poll_update env app fs).calls = some (cs "/tmp/a.jpg") ∧
      (poll_update env app fs).app.player_name = some (cs "org.mpris.MediaPlayer2.X") ∧
      (poll_update env app fs).fs = fs := by
  have hpick : (pick_mpris_player env).1 = some (cs "org.mpris.MediaPlayer2.X") := by
    simp only [pick_mpris_player, hnames]
    exact (pick_loop_eq_some _ _).mpr ⟨pre, post, rfl, by decide, hpre⟩
  have hex : g_file_test_exists fs (cs "/tmp/a.jpg") = true := by
    simp [g_file_test_exists, hfile]
  rw [poll_update_found env app fs _ hbus hname hpick,
    poll_fetch_dict env _ fs _ _ hreply, pick_calls]
  change (parse_metadata_and_update env _ fs blob_song).app.lbl_title = _ ∧
    (parse_metadata_and_update env _ fs blob_song).app.lbl_artist = _ ∧
    (parse_metadata_and_update env _ fs blob_song).app.img = _ ∧
    resolved_path ([Event.ListNames] ++ Event.GetMetadata _ ::
      (parse_metadata_and_update env _ fs blob_song).calls) = _ ∧
    (parse_metadata_and_update env _ fs blob_song).app.player_name = _ ∧
    (parse_metadata_and_update env _ fs blob_song).fs = _
  rw [parse_metadata_and_update_eq, snapshot_blob_song, maybe_load_cover_file, if_pos hex]
  rw [gtk_image_set_from_file, hfile]
  exact ⟨rfl, rfl, rfl, rfl, rfl, rfl⟩

/-- Witness of C9: the first tick of the program on the sample bus. -/
theorem poll_update_end_to_end_witness :
    main_init.bus = true ∧ main_init.player_name = none ∧
      fsA (cs "/tmp/a.jpg") = some [1, 2, 3] ∧
      (poll_update envA main_init fsA).app.img =
        GtkImage.file (cs "/tmp/a.jpg") (some [1, 2, 3]) :=
  ⟨rfl, rfl, by decide,
    (poll_update_end_to_end envA main_init fsA [cs ":1.7", cs "org.freedesktop.DBus"] []
      [1, 2, 3] rfl rfl rfl (by decide) rfl (by decide)).2.2.1⟩

/-- C10, as stated, fails: the program starts with no peer bound, the locator
returns `name_X`, the metadata call of the same tick fails, and the tick ends
with no peer bound. -/
theorem located_then_lost_same_tick :
    main_init.player_name = none ∧
      (pick_mpris_player env_lost).1 = some name_X ∧
      (poll_update env_lost main_init fsA).app.player_name = none :=
  ⟨rfl, by decide, by decide⟩

/-- C10 (amended): the program starts with no peer bound. A tick that starts
with no peer bound (bus connected) and in which the locator returns a name
ends bound to that name when the metadata call of the same tick gets a reply,
and with no peer bound when that call fails. A tick that starts bound and
whose metadata call gets a reply stays bound to the same name. -/
theorem poll_update_transitions (env : Env) (app : App) (fs : FileSystem) (name : CStr)
    (hbus : app.bus = true) :
    main_init.player_name = none ∧
      (app.player_name = none → (pick_mpris_player env).1 = some name →
        (env.getMetadata name ≠ none →
          (poll_update env app fs).app.player_name = some name) ∧
        (env.getMetadata name = none →
          (poll_update env app fs).app.player_name = none)) ∧
      (app.player_name = some name → env.getMetadata name ≠ none →
        (poll_update env app fs).app.player_name = some name) := by
  refine ⟨rfl, ?_, ?_⟩
  · intro hname hpick
    rw [poll_update_found env app fs name hbus hname hpick]
    constructor
    · intro hreply
      exact (poll_fetch_replied env _ fs name hreply).1
    · intro hfail
      rw [poll_fetch_failed env _ fs name hfail]
  · intro hname hreply
    rw [poll_update_bound env app fs name hbus hname,
      (poll_fetch_replied env app fs name hreply).1]
    exact hname

/-- Witness of C10 (amended): a second tick on the sample bus stays bound. -/
theorem poll_update_transitions_witness :
    app_bound.bus = true ∧
      (poll_update envA app_bound fsA).app.player_name = some name_X :=
  ⟨rfl,
    (poll_update_transitions envA app_bound fsA name_X rfl).2.2 rfl
      (fun h => Option.noConfusion h)⟩

end PlayerHUD
